import Mathlib

/-!
Shallow embedding of the `huangjunwen/platform-kit` Go repository (the SVC
service framework and the MSG transactional-outbox connector), together with
theorems settling the frozen claims about it.

Modelling conventions:

* Go maps are modelled as association lists with replace-on-insert semantics
  (`mapInsert`) and first-match lookup (`mapLookup`).  Because inserts replace,
  a key occurs at most once, and Go's unspecified iteration order is only used
  where the result is order-independent.
* Go `panic` is modelled by an explicit outcome constructor; Go `error` values
  by `Option` of an error type.
* `interface{}` identity of `Method` values (Go compares interface values,
  i.e. pointers, when using a `Method` as a map key) is modelled by a `ref`
  field carried in the `Method` structure.
-/

namespace PlatformKit

/-- Lookup in the association-list model of a Go map. -/
def mapLookup {κ α : Type} [DecidableEq κ] : List (κ × α) → κ → Option α
  | [], _ => none
  | (k1, v1) :: rest, k => if k = k1 then some v1 else mapLookup rest k

/-- Insert (`m[k] = v`) in the association-list model of a Go map: replaces any
existing binding of `k`. -/
def mapInsert {κ α : Type} [DecidableEq κ] : List (κ × α) → κ → α → List (κ × α)
  | [], k, v => [(k, v)]
  | (k1, v1) :: rest, k, v =>
      if k = k1 then (k, v) :: rest else (k1, v1) :: mapInsert rest k v

theorem mapLookup_insert_self {κ α : Type} [DecidableEq κ]
    (m : List (κ × α)) (k : κ) (v : α) :
    mapLookup (mapInsert m k v) k = some v := by
  induction m with
  | nil => simp [mapInsert, mapLookup]
  | cons hd tl ih =>
      obtain ⟨k1, v1⟩ := hd
      by_cases h : k = k1
      · simp [mapInsert, mapLookup, h]
      · simp [mapInsert, mapLookup, h, ih]

theorem mapLookup_insert_ne {κ α : Type} [DecidableEq κ]
    (m : List (κ × α)) (k k' : κ) (v : α) (h : k' ≠ k) :
    mapLookup (mapInsert m k v) k' = mapLookup m k' := by
  induction m with
  | nil => simp [mapInsert, mapLookup, h]
  | cons hd tl ih =>
      obtain ⟨k1, v1⟩ := hd
      by_cases h1 : k = k1
      · subst h1
        simp [mapInsert, mapLookup, h]
      · by_cases h2 : k' = k1
        · simp [mapInsert, mapLookup, h1, h2]
        · simp [mapInsert, mapLookup, h1, h2, ih]

theorem mapLookup_eq_none_of_not_mem_keys {κ α : Type} [DecidableEq κ]
    (m : List (κ × α)) (k : κ) (h : k ∉ m.map Prod.fst) :
    mapLookup m k = none := by
  induction m with
  | nil => rfl
  | cons hd tl ih =>
      obtain ⟨k1, v1⟩ := hd
      simp only [List.map_cons, List.mem_cons] at h
      push_neg at h
      simp [mapLookup, h.1, ih h.2]

/-! ## SVC middleware (`src/svc/middleware.go`) -/

/-- Models Go `ServiceHandler = func(context.Context, Method, interface{}, interface{}) error`. -/
def ServiceHandler (Ctx Mth Inp Outp ε : Type) : Type :=
  Ctx → Mth → Inp → Outp → Option ε

/-- Models Go `ServiceMiddleware = func(ServiceHandler) ServiceHandler`. -/
def ServiceMiddleware (Ctx Mth Inp Outp ε : Type) : Type :=
  ServiceHandler Ctx Mth Inp Outp ε → ServiceHandler Ctx Mth Inp Outp ε

/-- A `Service` (Go interface) is modelled by the observable behaviour the
claims need: its name and its invoke function. -/
structure Service (Ctx Mth Inp Outp ε : Type) where
  name : String
  invoke : ServiceHandler Ctx Mth Inp Outp ε

/-- A `ServiceWithInterface`: a service that additionally exposes an interface
value (the interface representation is abstract here). -/
structure ServiceWithItf (Ctx Mth Inp Outp ε Itf : Type) where
  name : String
  invoke : ServiceHandler Ctx Mth Inp Outp ε
  itf : Itf

/-- The loop body of `DecorateService`:
`h := svc.Invoke; for i := len(mws)-1; i >= 0; i-- { h = mws[i](h) }`.
`decorateGo mws n h` performs the iterations for `i = n-1, n-2, …, 0`
(the `id` default of `getD` is never used when `n ≤ mws.length`). -/
def decorateGo {Ctx Mth Inp Outp ε : Type}
    (mws : List (ServiceMiddleware Ctx Mth Inp Outp ε)) :
    Nat → ServiceHandler Ctx Mth Inp Outp ε → ServiceHandler Ctx Mth Inp Outp ε
  | 0, h => h
  | n + 1, h => decorateGo mws n (mws.getD n id h)

/-- `DecorateService` (`middleware.go` lines 34-43): wraps `svc.Invoke` in the
middlewares, producing a `decSvc` whose `Name` delegates to the wrapped service
and whose `Invoke` calls the decorated handler. -/
def DecorateService {Ctx Mth Inp Outp ε : Type}
    (svc : Service Ctx Mth Inp Outp ε)
    (mws : List (ServiceMiddleware Ctx Mth Inp Outp ε)) :
    Service Ctx Mth Inp Outp ε :=
  { name := svc.name
    invoke := decorateGo mws mws.length svc.invoke }

/-- `DecorateServiceWithInterface` (`middleware.go` lines 46-55): same loop;
the resulting `decSvcWithItf` also delegates `Interface()` to the wrapped
service. -/
def DecorateServiceWithInterface {Ctx Mth Inp Outp ε Itf : Type}
    (svc : ServiceWithItf Ctx Mth Inp Outp ε Itf)
    (mws : List (ServiceMiddleware Ctx Mth Inp Outp ε)) :
    ServiceWithItf Ctx Mth Inp Outp ε Itf :=
  { name := svc.name
    invoke := decorateGo mws mws.length svc.invoke
    itf := svc.itf }

/-- Modelled from the spec: the composition `mws[0] ∘ mws[1] ∘ … ∘ mws[n-1]`
of the middleware list, `mws[0]` outermost. -/
def composeMiddlewares {Ctx Mth Inp Outp ε : Type}
    (mws : List (ServiceMiddleware Ctx Mth Inp Outp ε)) :
    ServiceMiddleware Ctx Mth Inp Outp ε :=
  mws.foldr (· ∘ ·) id

theorem decorateGo_eq_foldr_take {Ctx Mth Inp Outp ε : Type}
    (mws : List (ServiceMiddleware Ctx Mth Inp Outp ε)) :
    ∀ (n : Nat), n ≤ mws.length →
      ∀ (h : ServiceHandler Ctx Mth Inp Outp ε),
        decorateGo mws n h = (mws.take n).foldr (fun m k => m k) h := by
  intro n
  induction n with
  | zero => intro _ h; rfl
  | succ n ih =>
      intro hle h
      have hn : n < mws.length := Nat.lt_of_succ_le hle
      have htake : mws.take (n + 1) = mws.take n ++ [mws.get ⟨n, hn⟩] := by
        rw [List.take_succ]
        simp [List.getElem?_eq_getElem hn]
      have hgetD : mws.getD n id = mws.get ⟨n, hn⟩ := by
        simp [List.getD, List.getElem?_eq_getElem hn]
      calc decorateGo mws (n + 1) h
          = decorateGo mws n (mws.getD n id h) := rfl
        _ = (mws.take n).foldr (fun m k => m k) (mws.getD n id h) :=
            ih (Nat.le_of_lt hn) _
        _ = (mws.take (n + 1)).foldr (fun m k => m k) h := by
            rw [htake, List.foldr_append, hgetD]
            rfl

theorem foldr_apply_eq_composeMiddlewares {Ctx Mth Inp Outp ε : Type}
    (mws : List (ServiceMiddleware Ctx Mth Inp Outp ε))
    (h : ServiceHandler Ctx Mth Inp Outp ε) :
    mws.foldr (fun m k => m k) h = composeMiddlewares mws h := by
  induction mws with
  | nil => rfl
  | cons m rest ih => simp [composeMiddlewares, List.foldr_cons, Function.comp] at ih ⊢; rw [ih]

/-- C2: `DecorateService(s, M…)` yields a service whose `Invoke` is
`M[0] ∘ M[1] ∘ … ∘ M[n-1] ∘ s.Invoke`, so `M[0]` is the outermost wrapper and
the middlewares run in list order around `s.Invoke`. -/
theorem decorateService_compose {Ctx Mth Inp Outp ε : Type}
    (svc : Service Ctx Mth Inp Outp ε)
    (mws : List (ServiceMiddleware Ctx Mth Inp Outp ε)) :
    (DecorateService svc mws).invoke = composeMiddlewares mws svc.invoke := by
  show decorateGo mws mws.length svc.invoke = composeMiddlewares mws svc.invoke
  rw [decorateGo_eq_foldr_take mws mws.length (Nat.le_refl _) svc.invoke,
    List.take_length, foldr_apply_eq_composeMiddlewares]

/-- C10: decoration with an empty middleware list is the identity on
behaviour: the name is preserved and `Invoke` is exactly the wrapped service's
`Invoke`; `DecorateServiceWithInterface` additionally preserves `Interface()`. -/
theorem decorate_empty_identity {Ctx Mth Inp Outp ε Itf : Type}
    (svc : Service Ctx Mth Inp Outp ε)
    (svcI : ServiceWithItf Ctx Mth Inp Outp ε Itf) :
    (DecorateService svc []).name = svc.name ∧
    (DecorateService svc []).invoke = svc.invoke ∧
    (DecorateServiceWithInterface svcI []).name = svcI.name ∧
    (DecorateServiceWithInterface svcI []).invoke = svcI.invoke ∧
    (DecorateServiceWithInterface svcI []).itf = svcI.itf :=
  ⟨rfl, rfl, rfl, rfl, rfl⟩

/-! ## SVC local service (`src/svc/svc.go`, `src/svc/method.go`) -/

/-- A type-erased value (Go `interface{}` carrying a concrete value): `ty`
models `reflect.TypeOf`, `payload` the value itself. -/
structure Val where
  ty : Nat
  payload : Nat
deriving DecidableEq

/-- A `*defaultMethod` descriptor.  `ref` models the pointer identity of the
Go interface value (two methods with the same name are distinct entities);
`inTy`/`outTy` model the recorded `reflect.Type`s. -/
structure Method where
  ref : Nat
  name : String
  inTy : Nat
  outTy : Nat
deriving DecidableEq

/-- Errors a service invoke can return: the sentinel `ErrMethodNotFound` from
`errors.go`, or an application error. -/
inductive SvcError (ε : Type) where
  | methodNotFound
  | app (e : ε)
deriving DecidableEq

/-- A `MethodHandler` as called by `localService.Invoke`:
`handler.Invoke(ctx, input, output) error` (the output is mutated in place in
Go; here only the returned error is observable). -/
def MethodHandler (Ctx ε : Type) : Type :=
  Ctx → Val → Val → Option (SvcError ε)

/-- `localService`: name plus `map[string]Method` and
`map[Method]MethodHandler`. -/
structure LocalService (Ctx ε : Type) where
  name : String
  methods : List (String × Method)
  handlers : List (Method × MethodHandler Ctx ε)

/-- `NewLocalService` (`svc.go` lines 88-126), restricted to well-formed
method/handler pairs (the name-validity and pair-shape panics are not needed
by the claims): the loop stores `svc.methods[method.Name()] = method` and
`svc.handlers[method] = handler` for each pair in order. -/
def NewLocalService {Ctx ε : Type} (svcName : String)
    (pairs : List (Method × MethodHandler Ctx ε)) : LocalService Ctx ε :=
  pairs.foldl
    (fun svc p =>
      { svc with
        methods := mapInsert svc.methods p.1.name p.1
        handlers := mapInsert svc.handlers p.1 p.2 })
    { name := svcName, methods := [], handlers := [] }

/-- The observable outcome of `localService.Invoke`: either a Go panic (from
`AssertInputType`/`AssertOutputType`) or a returned error value. -/
inductive InvokeOutcome (ε : Type) where
  | crashed
  | returned (e : Option (SvcError ε))
deriving DecidableEq

/-- `localService.Invoke` (`svc.go` lines 132-146): look the handler up first;
missing handler returns `ErrMethodNotFound`; then the input and output types
are asserted (panic on mismatch); finally the handler runs. -/
def LocalService.invoke {Ctx ε : Type} (svc : LocalService Ctx ε) (ctx : Ctx)
    (method : Method) (input output : Val) : InvokeOutcome ε :=
  match mapLookup svc.handlers method with
  | none => .returned (some .methodNotFound)
  | some h =>
      if input.ty ≠ method.inTy then .crashed
      else if output.ty ≠ method.outTy then .crashed
      else .returned (h ctx input output)

/-- `localService.Interface` returns `defaultInterface(svc.methods)`. -/
def LocalService.interface {Ctx ε : Type} (svc : LocalService Ctx ε) :
    List (String × Method) :=
  svc.methods

/-- `defaultInterface.HasMethod` (`method.go` lines 191-193):
`i[method.Name()] == method` — identity on `Method`, not name. -/
def hasMethod (itf : List (String × Method)) (m : Method) : Bool :=
  decide (mapLookup itf m.name = some m)

/-- C8: for every local service and every `Method` that is not a key of its
handler map, `Invoke` returns `ErrMethodNotFound` for all inputs and outputs
without panicking: the handler lookup happens before any type assertion. -/
theorem invoke_unknown_method_notfound {Ctx ε : Type}
    (svc : LocalService Ctx ε) (ctx : Ctx) (method : Method)
    (input output : Val)
    (h : mapLookup svc.handlers method = none) :
    svc.invoke ctx method input output =
      InvokeOutcome.returned (some SvcError.methodNotFound) := by
  unfold LocalService.invoke
  rw [h]

def c8Svc : LocalService Unit Unit :=
  NewLocalService "echo.svc" [(⟨0, "echo", 1, 1⟩, fun _ _ _ => none)]

/-- Witness for C8: a concrete unregistered method with type-mismatched
arguments still yields the error return, not a panic. -/
theorem invoke_unknown_method_notfound_witness :
    mapLookup c8Svc.handlers ⟨1, "other", 1, 1⟩ = none ∧
    c8Svc.invoke () ⟨1, "other", 1, 1⟩ ⟨9, 0⟩ ⟨9, 0⟩ =
      InvokeOutcome.returned (some SvcError.methodNotFound) :=
  ⟨by rfl, invoke_unknown_method_notfound c8Svc () ⟨1, "other", 1, 1⟩ ⟨9, 0⟩ ⟨9, 0⟩ (by rfl)⟩

/-- C9: two pairs whose methods are distinct descriptors sharing one name:
both handlers are kept (keyed by method identity) while the name→method map
keeps only the later method; `Invoke` with the earlier method still runs its
own handler, yet `Interface()`'s `HasMethod` on it is false. -/
theorem shadowed_method_still_invocable {Ctx ε : Type} (nm : String)
    (m1 m2 : Method) (h1 h2 : MethodHandler Ctx ε) (ctx : Ctx)
    (input output : Val)
    (hname : m1.name = m2.name) (hne : m1 ≠ m2)
    (hin : input.ty = m1.inTy) (hout : output.ty = m1.outTy) :
    mapLookup (NewLocalService nm [(m1, h1), (m2, h2)]).handlers m1 = some h1 ∧
    mapLookup (NewLocalService nm [(m1, h1), (m2, h2)]).methods m1.name = some m2 ∧
    (NewLocalService nm [(m1, h1), (m2, h2)]).invoke ctx m1 input output =
      InvokeOutcome.returned (h1 ctx input output) ∧
    hasMethod (NewLocalService nm [(m1, h1), (m2, h2)]).interface m1 = false := by
  have hsvc : NewLocalService nm [(m1, h1), (m2, h2)] =
      { name := nm
        methods := mapInsert (mapInsert [] m1.name m1) m2.name m2
        handlers := mapInsert (mapInsert [] m1 h1) m2 h2 } := rfl
  have hmethods : mapInsert (mapInsert ([] : List (String × Method)) m1.name m1) m2.name m2 =
      [(m2.name, m2)] := by
    simp [mapInsert, hname.symm]
  have hhandlers : mapInsert (mapInsert ([] : List (Method × MethodHandler Ctx ε)) m1 h1) m2 h2 =
      [(m1, h1), (m2, h2)] := by
    simp [mapInsert, Ne.symm hne]
  have hlh : mapLookup (NewLocalService nm [(m1, h1), (m2, h2)]).handlers m1 = some h1 := by
    rw [hsvc]
    show mapLookup (mapInsert (mapInsert [] m1 h1) m2 h2) m1 = some h1
    rw [hhandlers]
    simp [mapLookup]
  refine ⟨hlh, ?_, ?_, ?_⟩
  · rw [hsvc]
    show mapLookup (mapInsert (mapInsert [] m1.name m1) m2.name m2) m1.name = some m2
    rw [hmethods]
    simp [mapLookup, hname]
  · unfold LocalService.invoke
    rw [hlh]
    simp [hin, hout]
  · rw [hsvc]
    show hasMethod (mapInsert (mapInsert [] m1.name m1) m2.name m2) m1 = false
    rw [hmethods]
    simp [hasMethod, mapLookup, hname, Ne.symm hne]

def c9M1 : Method := ⟨0, "dup", 1, 2⟩

def c9M2 : Method := ⟨1, "dup", 1, 2⟩

def c9H1 : MethodHandler Unit Unit := fun _ _ _ => none

def c9H2 : MethodHandler Unit Unit := fun _ _ _ => some SvcError.methodNotFound

/-- Witness for C9 at a concrete shadowed-method instance. -/
theorem shadowed_method_still_invocable_witness :
    c9M1.name = c9M2.name ∧ c9M1 ≠ c9M2 ∧
    (Val.mk 1 7).ty = c9M1.inTy ∧ (Val.mk 2 8).ty = c9M1.outTy ∧
    (mapLookup (NewLocalService "s" [(c9M1, c9H1), (c9M2, c9H2)]).handlers c9M1 = some c9H1 ∧
     mapLookup (NewLocalService "s" [(c9M1, c9H1), (c9M2, c9H2)]).methods c9M1.name = some c9M2 ∧
     (NewLocalService "s" [(c9M1, c9H1), (c9M2, c9H2)]).invoke () c9M1 ⟨1, 7⟩ ⟨2, 8⟩ =
       InvokeOutcome.returned (c9H1 () ⟨1, 7⟩ ⟨2, 8⟩) ∧
     hasMethod (NewLocalService "s" [(c9M1, c9H1), (c9M2, c9H2)]).interface c9M1 = false) :=
  ⟨rfl, by decide, rfl, rfl,
    shadowed_method_still_invocable "s" c9M1 c9M2 c9H1 c9H2 () ⟨1, 7⟩ ⟨2, 8⟩
      rfl (by decide) rfl rfl⟩

/-! ## SVC passthrough context (`src/svc/ctx.go`)

Go maps are heap objects; to state the aliasing part of the claim (the
attached map is the same object as the existing one, mutated in place) the
`map[string]string` values live in an explicit heap, indexed by `Nat`
references.  A context carries at most the reference stored under
`passthruKey`. -/

/-- A heap of `map[string]string` objects. -/
def PassHeap : Type := List (List (String × String))

/-- Dereference a map; a reference is valid when it is below the heap size. -/
def heapGet (h : PassHeap) (r : Nat) : List (String × String) :=
  h.getD r []

/-- A `context.Context` restricted to what `ctx.go` reads: the value stored
under `passthruKey`, i.e. an optional reference to a passthru map. -/
structure PassCtx where
  pass : Option Nat
deriving DecidableEq

/-- `Passthru(ctx)`: the passthru map, or absent. -/
def PassthruOf (h : PassHeap) (ctx : PassCtx) : Option (List (String × String)) :=
  ctx.pass.map (heapGet h)

/-- The contents of the passthru map of a context (empty when absent). -/
def ctxMap (h : PassHeap) (ctx : PassCtx) : List (String × String) :=
  match ctx.pass with
  | none => []
  | some r => heapGet h r

/-- The merge loop `for k, v := range kv { p[k] = v }` of `WithPassthru`. -/
def mergeInto (p kv : List (String × String)) : List (String × String) :=
  kv.foldl (fun acc e => mapInsert acc e.1 e.2) p

/-- `WithPassthru` (`ctx.go` lines 52-62): if the context has no passthru map,
`p = kv` (the attached map is `kv` itself); otherwise the existing map is
mutated in place by the merge loop and re-attached. -/
def WithPassthru (h : PassHeap) (ctx : PassCtx) (kvRef : Nat) :
    PassHeap × PassCtx :=
  match ctx.pass with
  | none => (h, ⟨some kvRef⟩)
  | some r => (h.set r (mergeInto (heapGet h r) (heapGet h kvRef)), ⟨some r⟩)

theorem mapLookup_mergeInto (k : String) (kv : List (String × String))
    (hnd : (kv.map Prod.fst).Nodup) :
    ∀ p : List (String × String),
      mapLookup (mergeInto p kv) k =
        (mapLookup kv k).orElse (fun _ => mapLookup p k) := by
  induction kv with
  | nil => intro p; simp [mergeInto, mapLookup, Option.orElse]
  | cons e rest ih =>
      intro p
      obtain ⟨k1, v1⟩ := e
      simp only [List.map_cons, List.nodup_cons] at hnd
      have step : mergeInto p ((k1, v1) :: rest) = mergeInto (mapInsert p k1 v1) rest := rfl
      rw [step, ih hnd.2]
      by_cases hk : k = k1
      · subst hk
        have hrest : mapLookup rest k = none := by
          apply mapLookup_eq_none_of_not_mem_keys
          exact hnd.1
        simp [mapLookup, hrest, mapLookup_insert_self, Option.orElse]
      · simp [mapLookup, hk, mapLookup_insert_ne p k1 k v1 hk]

/-- C6: `WithPassthru(ctx, kv)` attaches a map in which keys from `kv`
override the existing passthru entries, and the attached map is the existing
map's own reference when the context already carried one (so it is mutated in
place, not copied); when the context carried none, it is `kv`'s own
reference. -/
theorem withPassthru_merge_alias (h : PassHeap) (ctx : PassCtx) (kvRef : Nat)
    (k : String)
    (hv : ∀ r, ctx.pass = some r → r < h.length)
    (hnd : ((heapGet h kvRef).map Prod.fst).Nodup) :
    mapLookup (ctxMap (WithPassthru h ctx kvRef).1 (WithPassthru h ctx kvRef).2) k
      = (mapLookup (heapGet h kvRef) k).orElse (fun _ => mapLookup (ctxMap h ctx) k) ∧
    (WithPassthru h ctx kvRef).2.pass = some (ctx.pass.getD kvRef) := by
  obtain ⟨p⟩ := ctx
  match p with
  | none =>
      constructor
      · show mapLookup (ctxMap h ⟨some kvRef⟩) k = _
        rw [show ctxMap h ⟨some kvRef⟩ = heapGet h kvRef from rfl]
        rw [show ctxMap h ⟨none⟩ = [] from rfl]
        cases mapLookup (heapGet h kvRef) k <;> simp [mapLookup, Option.orElse]
      · rfl
  | some r =>
      have hr : r < h.length := hv r rfl
      have hget : heapGet (h.set r (mergeInto (heapGet h r) (heapGet h kvRef))) r
          = mergeInto (heapGet h r) (heapGet h kvRef) := by
        unfold heapGet
        rw [List.getD_eq_getElem?_getD, List.getElem?_set_self]
        · simp
        · simpa using hr
      constructor
      · show mapLookup (ctxMap (h.set r _) ⟨some r⟩) k = _
        rw [show ctxMap (h.set r (mergeInto (heapGet h r) (heapGet h kvRef))) ⟨some r⟩
            = heapGet (h.set r (mergeInto (heapGet h r) (heapGet h kvRef))) r from rfl]
        rw [hget, mapLookup_mergeInto k (heapGet h kvRef) hnd (heapGet h r)]
        rw [show ctxMap h ⟨some r⟩ = heapGet h r from rfl]
      · rfl

def c6Heap : PassHeap := [[("a", "1"), ("b", "2")], [("a", "9")]]

def c6Ctx : PassCtx := ⟨some 0⟩

/-- Witness for C6: a concrete context already carrying map `{a:1, b:2}` at
reference 0, merged with `kv = {a:9}`: key `a` is overridden and the attached
reference is still 0. -/
theorem withPassthru_merge_alias_witness :
    (mapLookup (ctxMap (WithPassthru c6Heap c6Ctx 1).1 (WithPassthru c6Heap c6Ctx 1).2) "a"
      = (mapLookup (heapGet c6Heap 1) "a").orElse (fun _ => mapLookup (ctxMap c6Heap c6Ctx) "a") ∧
     (WithPassthru c6Heap c6Ctx 1).2.pass = some (c6Ctx.pass.getD 1)) ∧
    mapLookup (ctxMap (WithPassthru c6Heap c6Ctx 1).1 (WithPassthru c6Heap c6Ctx 1).2) "a"
      = some "9" ∧
    mapLookup (ctxMap (WithPassthru c6Heap c6Ctx 1).1 (WithPassthru c6Heap c6Ctx 1).2) "b"
      = some "2" :=
  ⟨withPassthru_merge_alias c6Heap c6Ctx 1 "a"
      (by intro r hr; simp [c6Ctx] at hr; subst hr; decide) (by decide),
    by rfl, by rfl⟩

/-! ## SVC name validation (`src/svc/method.go`, `src/svc/svc.go`)

Both files compile the anchored pattern
`^([a-zA-Z][a-zA-Z0-9_]*)(\.([a-zA-Z][a-zA-Z0-9_]*))*$` and call
`MatchString`.  The match is embedded as a two-state scanner over the
characters: state `true` expects the first character of a segment, state
`false` is inside a segment. -/

/-- The character class `[a-zA-Z0-9_]`. -/
def isWordChar (c : Char) : Bool :=
  c.isAlpha || c.isDigit || c = '_'

/-- Anchored match of `([a-zA-Z][a-zA-Z0-9_]*)(\.([a-zA-Z][a-zA-Z0-9_]*))*`
against the whole character list.  `expectSeg = true` at the start of a
segment, `false` inside one. -/
def matchName : Bool → List Char → Bool
  | expectSeg, [] => !expectSeg
  | true, c :: rest => c.isAlpha && matchName false rest
  | false, c :: rest =>
      if c = '.' then matchName true rest else isWordChar c && matchName false rest

/-- `IsValidMethodName` (`method.go` lines 218-220):
`methodNameRegexp.MatchString(methodName)`. -/
def IsValidMethodName (s : String) : Bool :=
  matchName true s.data

/-- `IsValidServiceName` (`svc.go` lines 158-160):
`serviceNameRegexp.MatchString(svcName)`; the pattern is identical to the
method-name pattern. -/
def IsValidServiceName (s : String) : Bool :=
  matchName true s.data

/-- One segment: a letter followed by letters, digits or underscores. -/
def segOK (cs : List Char) : Bool :=
  match cs with
  | [] => false
  | c :: rest => c.isAlpha && rest.all isWordChar

/-- Modelled from the spec: the dotted-identifier grammar — a non-empty
sequence of valid segments separated by single dots. -/
inductive DottedName : List Char → Prop where
  | single : ∀ seg, segOK seg = true → DottedName seg
  | dotted : ∀ seg rest, segOK seg = true → DottedName rest →
      DottedName (seg ++ '.' :: rest)

theorem word_ne_dot {c : Char} (h : isWordChar c = true) : c ≠ '.' := by
  intro hc
  subst hc
  simp [isWordChar, Char.isAlpha, Char.isDigit, Char.isUpper, Char.isLower] at h

theorem matchName_false_append {pre : List Char}
    (hpre : ∀ x ∈ pre, isWordChar x = true) (t : List Char) :
    matchName false (pre ++ t) = matchName false t := by
  induction pre with
  | nil => rfl
  | cons c rest ih =>
      have hc : isWordChar c = true := hpre c (List.mem_cons_self c rest)
      have hrest : ∀ x ∈ rest, isWordChar x = true :=
        fun x hx => hpre x (List.mem_cons_of_mem c hx)
      show matchName false (c :: (rest ++ t)) = matchName false t
      rw [show matchName false (c :: (rest ++ t))
          = if c = '.' then matchName true (rest ++ t)
            else isWordChar c && matchName false (rest ++ t) from rfl]
      rw [if_neg (word_ne_dot hc), hc, Bool.true_and, ih hrest]

theorem matchName_of_dottedName {cs : List Char} (h : DottedName cs) :
    matchName true cs = true := by
  induction h with
  | single seg hseg =>
      match seg, hseg with
      | c :: rest, hseg =>
          simp only [segOK, Bool.and_eq_true] at hseg
          show (c.isAlpha && matchName false rest) = true
          rw [hseg.1, Bool.true_and]
          have hre : rest ++ ([] : List Char) = rest := List.append_nil rest
          rw [← hre, matchName_false_append (fun x hx => by
            have := List.all_eq_true.mp hseg.2 x hx
            simpa using this) []]
          rfl
  | dotted seg rest hseg _ ih =>
      match seg, hseg with
      | c :: s2, hseg =>
          simp only [segOK, Bool.and_eq_true] at hseg
          show (c.isAlpha && matchName false (s2 ++ '.' :: rest)) = true
          rw [hseg.1, Bool.true_and]
          rw [matchName_false_append (fun x hx => by
            have := List.all_eq_true.mp hseg.2 x hx
            simpa using this) ('.' :: rest)]
          show matchName true rest = true
          exact ih

theorem matchName_false_split {cs : List Char}
    (h : matchName false cs = true) :
    (∀ x ∈ cs, isWordChar x = true) ∨
    (∃ pre t, cs = pre ++ '.' :: t ∧ (∀ x ∈ pre, isWordChar x = true) ∧
      matchName true t = true) := by
  induction cs with
  | nil => exact Or.inl (by intro x hx; cases hx)
  | cons c rest ih =>
      by_cases hc : c = '.'
      · subst hc
        right
        refine ⟨[], rest, rfl, ?_, ?_⟩
        · intro x hx; cases hx
        · simpa [matchName] using h
      · have h2 : isWordChar c = true ∧ matchName false rest = true := by
          rw [show matchName false (c :: rest)
              = if c = '.' then matchName true rest
                else isWordChar c && matchName false rest from rfl, if_neg hc] at h
          simpa using h
        cases ih h2.2 with
        | inl hall =>
            left
            intro x hx
            cases List.mem_cons.mp hx with
            | inl hx1 => subst hx1; exact h2.1
            | inr hx2 => exact hall x hx2
        | inr hex =>
            obtain ⟨pre, t, heq, hpre, ht⟩ := hex
            right
            refine ⟨c :: pre, t, by rw [heq]; rfl, ?_, ht⟩
            intro x hx
            cases List.mem_cons.mp hx with
            | inl hx1 => subst hx1; exact h2.1
            | inr hx2 => exact hpre x hx2

theorem dottedName_of_matchName :
    ∀ (n : Nat) (cs : List Char), cs.length ≤ n →
      matchName true cs = true → DottedName cs := by
  intro n
  induction n with
  | zero =>
      intro cs hlen h
      match cs with
      | [] => cases h
  | succ n ih =>
      intro cs hlen h
      match cs with
      | [] => cases h
      | c :: rest =>
          have h0 : (c.isAlpha && matchName false rest) = true := h
          have h2 : c.isAlpha = true ∧ matchName false rest = true := by
            simpa using h0
          cases matchName_false_split h2.2 with
          | inl hall =>
              exact DottedName.single (c :: rest) (by
                simp only [segOK, Bool.and_eq_true]
                exact ⟨h2.1, List.all_eq_true.mpr (fun x hx => hall x hx)⟩)
          | inr hex =>
              obtain ⟨pre, t, heq, hpre, ht⟩ := hex
              have hlt : t.length ≤ n := by
                have : rest.length = pre.length + (t.length + 1) := by
                  rw [heq]; simp [List.length_append]
                have hr : rest.length ≤ n := by
                  simpa using Nat.le_of_succ_le_succ (by simpa using hlen)
                omega
              have hd : DottedName t := ih t hlt ht
              have : (c :: rest) = (c :: pre) ++ '.' :: t := by
                rw [heq]; rfl
              rw [this]
              refine DottedName.dotted (c :: pre) t ?_ hd
              simp only [segOK, Bool.and_eq_true]
              exact ⟨h2.1, List.all_eq_true.mpr (fun x hx => hpre x hx)⟩

/-- C4: `IsValidMethodName(s)` is true iff `s` matches the dotted-identifier
grammar (non-empty, segments separated by single dots, each segment a letter
followed by letters, digits or underscores), and `IsValidServiceName` decides
exactly the same language. -/
theorem isValidMethodName_grammar (s : String) :
    (IsValidMethodName s = true ↔ DottedName s.data) ∧
    IsValidServiceName s = IsValidMethodName s :=
  ⟨⟨fun h => dottedName_of_matchName s.data.length s.data (Nat.le_refl _) h,
    fun h => matchName_of_dottedName h⟩, rfl⟩

/-! ## MSG MySQL store (`src/msg/store/mysql/mysql.go`)

The outbox table is modelled as a list of rows; `ProcessResult` builds the
comma-separated id list of the positionally `true`-flagged entries (modelled
as a `List Nat`), returns with no deletion when it is empty, and otherwise
issues `DELETE … WHERE id IN (ids)` (modelled as filtering the table). -/

/-- A `nxMySQLMsg` row: `id` primary key, `subject`, `data`. -/
structure NxMsg where
  id : Nat
  subject : String
  dat : String
deriving DecidableEq

/-- The id-collecting loop of `ProcessResult` (`mysql.go` lines 123-133):
skip entries whose flag is `false`, append the ids of the rest. -/
def collectSuccessIds (msgs : List NxMsg) (results : List Bool) : List Nat :=
  ((msgs.zip results).filter (fun p => p.2)).map (fun p => p.1.id)

/-- `MySQLMsgStore.ProcessResult` (`mysql.go` lines 122-147) acting on the
table state: if every flag is `false` no statement is issued; otherwise the
successfully published rows are deleted by id. -/
def ProcessResult (table : List NxMsg) (msgs : List NxMsg)
    (results : List Bool) : List NxMsg :=
  let ids := collectSuccessIds msgs results
  if ids.isEmpty then table
  else table.filter (fun row => !(ids.contains row.id))

theorem mem_collectSuccessIds_iff (msgs : List NxMsg) (results : List Bool)
    (hlen : results.length = msgs.length) (x : Nat) :
    x ∈ collectSuccessIds msgs results ↔
      ∃ (j : Nat) (hj : j < msgs.length),
        (msgs.get ⟨j, hj⟩).id = x ∧ results.get ⟨j, hlen ▸ hj⟩ = true := by
  unfold collectSuccessIds
  constructor
  · intro hx
    obtain ⟨p, hp, hpx⟩ := List.mem_map.mp hx
    have hp2 := List.mem_filter.mp hp
    obtain ⟨j, hj, hpj⟩ := List.mem_iff_getElem.mp hp2.1
    have hjlen : j < msgs.length := by
      have := hj
      rw [List.length_zip, hlen, Nat.min_self] at this
      exact this
    have hjres : j < results.length := by rw [hlen]; exact hjlen
    have hget : (msgs.zip results)[j] = (msgs[j], results[j]) :=
      List.getElem_zip
    refine ⟨j, hjlen, ?_, ?_⟩
    · rw [show msgs.get ⟨j, hjlen⟩ = msgs[j] from rfl]
      rw [← hpx, show p = (msgs[j], results[j]) by rw [← hpj, hget]]
    · rw [show results.get ⟨j, hlen ▸ hjlen⟩ = results[j] from rfl]
      have : p.2 = results[j] := by rw [← hpj, hget]
      rw [← this]
      exact hp2.2
  · intro ⟨j, hj, hid, hres⟩
    have hjres : j < results.length := by rw [hlen]; exact hj
    have hjzip : j < (msgs.zip results).length := by
      rw [List.length_zip, hlen, Nat.min_self]; exact hj
    apply List.mem_map.mpr
    refine ⟨(msgs[j], results[j]), ?_, ?_⟩
    · apply List.mem_filter.mpr
      constructor
      · have hget : (msgs.zip results)[j] = (msgs[j], results[j]) :=
          List.getElem_zip
        rw [← hget]
        exact List.getElem_mem hjzip
      · exact hres
    · exact hid

/-- C5: after `ProcessResult(msgs, results)` every entry whose flag is `true`
has been removed from the table and no entry whose flag is `false` has been
removed; when no flag is `true` the table is unchanged (no deletion issued). -/
theorem processResult_removes_exactly_flagged (table : List NxMsg)
    (msgs : List NxMsg) (results : List Bool) (i : Nat)
    (hlen : results.length = msgs.length)
    (hnd : (msgs.map NxMsg.id).Nodup)
    (hi : i < msgs.length) :
    (results.get ⟨i, hlen ▸ hi⟩ = true →
      ∀ row ∈ ProcessResult table msgs results, row.id ≠ (msgs.get ⟨i, hi⟩).id) ∧
    (results.get ⟨i, hlen ▸ hi⟩ = false →
      ∀ row ∈ table, row.id = (msgs.get ⟨i, hi⟩).id →
        row ∈ ProcessResult table msgs results) ∧
    ((∀ b ∈ results, b = false) → ProcessResult table msgs results = table) := by
  have hnoneTrue : (∀ b ∈ results, b = false) →
      collectSuccessIds msgs results = [] := by
    intro hall
    unfold collectSuccessIds
    rw [List.filter_eq_nil.mpr, List.map_nil]
    intro p hp
    have hp2 : p.2 ∈ results := (List.mem_zip hp).2
    simp [hall p.2 hp2]
  refine ⟨?_, ?_, ?_⟩
  · intro hres row hrow
    have hin : (msgs.get ⟨i, hi⟩).id ∈ collectSuccessIds msgs results :=
      (mem_collectSuccessIds_iff msgs results hlen _).mpr
        ⟨i, hi, rfl, hres⟩
    have hne : ¬ (collectSuccessIds msgs results).isEmpty := by
      intro he
      rw [List.isEmpty_iff.mp he] at hin
      cases hin
    unfold ProcessResult at hrow
    rw [if_neg hne] at hrow
    have hmf := List.mem_filter.mp hrow
    intro heq
    have hcon : (collectSuccessIds msgs results).contains row.id = true :=
      List.elem_iff.mpr (by rw [heq]; exact hin)
    rw [hcon] at hmf
    exact Bool.noConfusion hmf.2
  · intro hres row hrow heq
    have hnotin : (msgs.get ⟨i, hi⟩).id ∉ collectSuccessIds msgs results := by
      intro hin
      obtain ⟨j, hj, hid, hjres⟩ :=
        (mem_collectSuccessIds_iff msgs results hlen _).mp hin
      have hij : j = i := by
        have hjm : j < (msgs.map NxMsg.id).length := by
          rw [List.length_map]; exact hj
        have him : i < (msgs.map NxMsg.id).length := by
          rw [List.length_map]; exact hi
        have heqid : (msgs.map NxMsg.id)[j] = (msgs.map NxMsg.id)[i] := by
          rw [List.getElem_map, List.getElem_map]
          exact hid
        exact (List.Nodup.getElem_inj_iff hnd).mp heqid
      subst hij
      exact Bool.noConfusion (hjres.symm.trans hres)
    unfold ProcessResult
    by_cases he : (collectSuccessIds msgs results).isEmpty
    · rw [if_pos he]; exact hrow
    · rw [if_neg he]
      apply List.mem_filter.mpr
      refine ⟨hrow, ?_⟩
      have hcon : (collectSuccessIds msgs results).contains row.id = false := by
        rw [← Bool.not_eq_true]
        intro hc
        exact hnotin (by rw [← heq]; exact List.elem_iff.mp hc)
      rw [hcon]
      rfl
  · intro hall
    unfold ProcessResult
    rw [hnoneTrue hall]
    rfl

def c5Table : List NxMsg := [⟨1, "s1", "d1"⟩, ⟨2, "s2", "d2"⟩, ⟨3, "s3", "d3"⟩]

/-- Witness for C5: flags `[true, false, true]` on the three fetched rows
remove rows 1 and 3 and keep row 2. -/
theorem processResult_removes_exactly_flagged_witness :
    ([true, false, true].get ⟨1, by decide⟩ = false →
      ∀ row ∈ c5Table, row.id = (c5Table.get ⟨1, by decide⟩).id →
        row ∈ ProcessResult c5Table c5Table [true, false, true]) ∧
    ProcessResult c5Table c5Table [true, false, true] = [⟨2, "s2", "d2"⟩] :=
  ⟨(processResult_removes_exactly_flagged c5Table c5Table [true, false, true] 1
      (by decide) (by decide) (by decide)).2.1, by decide⟩

/-! ## MSG connector batch publish (`src/msg/msg_connector.go`)

One iteration of the publish block of `MsgConnector.loop` (lines 117-165) on a
drawn batch.  Per entry the relevant behaviour of the bus is: either
`PublishAsync` fails synchronously (no id, no ack), or it returns a publish id
whose ack callback is later invoked exactly once, with a nil (`ackOk = true`)
or non-nil error.  The `success` set is iterated in batch order; since each
iteration only sets a flag to `true`, Go's unspecified map order is
immaterial. -/

/-- Outcome of `PublishAsync` + ack for one batch entry. -/
inductive PubOutcome where
  | fail
  | pub (pubId : String) (ackOk : Bool)
deriving DecidableEq

/-- The publish ids handed out by the bus (sync failures hand out none). -/
def pubIds (outs : List PubOutcome) : List String :=
  outs.filterMap (fun o => match o with
    | .pub pid _ => some pid
    | .fail => none)

/-- The `id2Msg[id] = i` loop (lines 142-149): walk the batch, recording the
publish id of each successfully issued publish against its index. -/
def buildId2MsgAux (acc : List (String × Nat)) (i : Nat) :
    List PubOutcome → List (String × Nat)
  | [] => acc
  | o :: rest =>
      buildId2MsgAux
        (match o with
          | .pub pid _ => mapInsert acc pid i
          | .fail => acc)
        (i + 1) rest

def buildId2Msg (outs : List PubOutcome) : List (String × Nat) :=
  buildId2MsgAux [] 0 outs

/-- The ids inserted into the `success` set by `ackHandler` (lines 128-138):
ids of entries whose publish was issued and acked with a nil error. -/
def successIds (outs : List PubOutcome) : List String :=
  outs.filterMap (fun o => match o with
    | .pub pid true => some pid
    | _ => none)

/-- The `results[id2Msg[id]] = true` loop (lines 160-162); a missing map key
yields Go's zero value `0`. -/
def applySuccess (id2Msg : List (String × Nat)) (ids : List String)
    (results : List Bool) : List Bool :=
  ids.foldl (fun rs pid => rs.set ((mapLookup id2Msg pid).getD 0) true) results

/-- The `results` mask handed to `store.ProcessResult` for the batch
(initialised all-`false` in the draw loop, lines 103-107). -/
def connectorMask (outs : List PubOutcome) : List Bool :=
  applySuccess (buildId2Msg outs) (successIds outs)
    (List.replicate outs.length false)

/-- Whether an entry's publish was issued successfully and acked with nil. -/
def isAckedSuccess : PubOutcome → Bool
  | .pub _ true => true
  | _ => false

theorem buildId2MsgAux_lookup_of_not_mem (pid : String) :
    ∀ (outs : List PubOutcome) (acc : List (String × Nat)) (i : Nat),
      pid ∉ pubIds outs →
      mapLookup (buildId2MsgAux acc i outs) pid = mapLookup acc pid := by
  intro outs
  induction outs with
  | nil => intro acc i _; rfl
  | cons o rest ih =>
      intro acc i hmem
      match o with
      | .fail =>
          have : pid ∉ pubIds rest := by
            intro hc; exact hmem (by simpa [pubIds] using hc)
          exact ih _ _ this
      | .pub q b =>
          have hq : pid ≠ q := by
            intro hqe
            exact hmem (by simp [pubIds, hqe])
          have hrest : pid ∉ pubIds rest := by
            intro hc
            exact hmem (by simp [pubIds]; right; simpa [pubIds] using hc)
          show mapLookup (buildId2MsgAux (mapInsert acc q i) (i + 1) rest) pid
              = mapLookup acc pid
          rw [ih _ _ hrest, mapLookup_insert_ne acc q pid i hq]

theorem buildId2MsgAux_lookup_at (pid : String) (b : Bool) :
    ∀ (outs : List PubOutcome) (j : Nat) (hj : j < outs.length)
      (acc : List (String × Nat)) (i : Nat),
      (pubIds outs).Nodup →
      outs.get ⟨j, hj⟩ = .pub pid b →
      mapLookup (buildId2MsgAux acc i outs) pid = some (i + j) := by
  intro outs
  induction outs with
  | nil => intro j hj; cases hj
  | cons o rest ih =>
      intro j hj acc i hnd hget
      match j, hj, hget with
      | 0, hj, hget =>
          have ho : o = .pub pid b := hget
          subst ho
          have hnd2 : pid ∉ pubIds rest ∧ (pubIds rest).Nodup := by
            have : pubIds (PubOutcome.pub pid b :: rest) = pid :: pubIds rest := rfl
            rw [this] at hnd
            exact List.nodup_cons.mp hnd
          show mapLookup (buildId2MsgAux (mapInsert acc pid i) (i + 1) rest) pid
              = some (i + 0)
          rw [buildId2MsgAux_lookup_of_not_mem pid rest _ _ hnd2.1,
            mapLookup_insert_self, Nat.add_zero]
      | Nat.succ j2, hj, hget =>
          have hj2 : j2 < rest.length := Nat.lt_of_succ_lt_succ hj
          have hget2 : rest.get ⟨j2, hj2⟩ = .pub pid b := hget
          have hndrest : (pubIds rest).Nodup := by
            match o with
            | .fail => exact hnd
            | .pub q c =>
                have : pubIds (PubOutcome.pub q c :: rest) = q :: pubIds rest := rfl
                rw [this] at hnd
                exact (List.nodup_cons.mp hnd).2
          match o with
          | .fail =>
              show mapLookup (buildId2MsgAux acc (i + 1) rest) pid = some (i + (j2 + 1))
              rw [ih j2 hj2 acc (i + 1) hndrest hget2]
              congr 1
              omega
          | .pub q c =>
              show mapLookup (buildId2MsgAux (mapInsert acc q i) (i + 1) rest) pid
                  = some (i + (j2 + 1))
              rw [ih j2 hj2 _ (i + 1) hndrest hget2]
              congr 1
              omega

theorem applySuccess_length (id2Msg : List (String × Nat)) :
    ∀ (ids : List String) (results : List Bool),
      (applySuccess id2Msg ids results).length = results.length := by
  intro ids
  induction ids with
  | nil => intro results; rfl
  | cons pid rest ih =>
      intro results
      show (applySuccess id2Msg rest _).length = _
      rw [ih, List.length_set]

theorem applySuccess_getElemOpt (id2Msg : List (String × Nat)) :
    ∀ (ids : List String) (results : List Bool) (j : Nat),
      (applySuccess id2Msg ids results)[j]? =
        (results[j]?).map
          (fun b => b || ids.any (fun pid => (mapLookup id2Msg pid).getD 0 == j)) := by
  intro ids
  induction ids with
  | nil =>
      intro results j
      show results[j]? = _
      cases results[j]? <;> simp [applySuccess]
  | cons pid rest ih =>
      intro results j
      show (applySuccess id2Msg rest
          (results.set ((mapLookup id2Msg pid).getD 0) true))[j]? = _
      rw [ih, List.getElem?_set]
      by_cases hpos : (mapLookup id2Msg pid).getD 0 = j
      · rw [if_pos hpos]
        by_cases hjl : (mapLookup id2Msg pid).getD 0 < results.length
        · rw [if_pos hjl]
          have hsome : results[j]? = some results[j] :=
            List.getElem?_eq_getElem (by rw [← hpos]; exact hjl)
          rw [hsome]
          simp [List.any_cons, hpos]
        · rw [if_neg hjl]
          have hnone : results[j]? = none :=
            List.getElem?_eq_none (by rw [← hpos]; omega)
          rw [hnone]
          simp
      · rw [if_neg hpos]
        cases hres : results[j]? with
        | none => simp
        | some b =>
            simp only [Option.map_some, List.any_cons,
              beq_false_of_ne hpos, Bool.false_or]

theorem buildId2Msg_lookup_at (pid : String) (b : Bool) (outs : List PubOutcome)
    (j : Nat) (hj : j < outs.length) (hnd : (pubIds outs).Nodup)
    (hget : outs.get ⟨j, hj⟩ = .pub pid b) :
    mapLookup (buildId2Msg outs) pid = some j := by
  have h := buildId2MsgAux_lookup_at pid b outs j hj [] 0 hnd hget
  rw [Nat.zero_add] at h
  exact h

theorem mem_successIds_iff (outs : List PubOutcome) (pid : String) :
    pid ∈ successIds outs ↔
      ∃ (j : Nat) (hj : j < outs.length), outs.get ⟨j, hj⟩ = .pub pid true := by
  unfold successIds
  rw [List.mem_filterMap]
  constructor
  · intro ⟨o, ho, hoeq⟩
    obtain ⟨j, hj, hjo⟩ := List.mem_iff_getElem.mp ho
    match o, hoeq with
    | .pub q true, hoeq =>
        have : q = pid := by simpa using hoeq
        subst this
        exact ⟨j, hj, hjo⟩
  · intro ⟨j, hj, hjo⟩
    exact ⟨.pub pid true, by rw [← hjo]; exact List.getElem_mem hj, rfl⟩

/-- C1: the mask passed to `store.ProcessResult` has the same length as the
batch, and `mask[i]` is true iff entry `i`'s `PublishAsync` returned without a
synchronous error and its ack callback was invoked with a nil error; a
sync-failed entry keeps a `false` flag.  The hypothesis is the bus contract
that publish ids within the batch are distinct. -/
theorem connector_mask_spec (outs : List PubOutcome)
    (hnd : (pubIds outs).Nodup) :
    connectorMask outs = outs.map isAckedSuccess := by
  apply List.ext_getElem?
  intro j
  rw [show connectorMask outs
      = applySuccess (buildId2Msg outs) (successIds outs)
          (List.replicate outs.length false) from rfl]
  rw [applySuccess_getElemOpt, List.getElem?_map]
  by_cases hjo : j < outs.length
  · have hrep : (List.replicate outs.length false)[j]? = some false := by
      rw [List.getElem?_eq_getElem
        (show j < (List.replicate outs.length false).length by
          rw [List.length_replicate]; exact hjo)]
      rw [List.getElem_replicate]
    have hout : outs[j]? = some (outs.get ⟨j, hjo⟩) :=
      List.getElem?_eq_getElem hjo
    rw [hrep, hout, Option.map_some', Option.map_some', Bool.false_or]
    congr 1
    by_cases hacked : isAckedSuccess (outs.get ⟨j, hjo⟩) = true
    · rw [hacked, List.any_eq_true]
      match houts : outs.get ⟨j, hjo⟩, hacked with
      | .pub pid true, _ =>
          refine ⟨pid, ?_, ?_⟩
          · exact (mem_successIds_iff outs pid).mpr ⟨j, hjo, houts⟩
          · rw [buildId2Msg_lookup_at pid true outs j hjo hnd houts]
            simp
    · rw [Bool.not_eq_true] at hacked
      rw [hacked, ← Bool.not_eq_true, List.any_eq_true]
      intro ⟨pid, hpid, hbeq⟩
      obtain ⟨k, hk, hko⟩ := (mem_successIds_iff outs pid).mp hpid
      rw [buildId2Msg_lookup_at pid true outs k hk hnd hko] at hbeq
      have hkj : k = j := by simpa using hbeq
      subst hkj
      rw [hko] at hacked
      cases hacked
  · have hrep : (List.replicate outs.length false)[j]? = none :=
      List.getElem?_eq_none (by rw [List.length_replicate]; omega)
    have hout : outs[j]? = none := List.getElem?_eq_none (by omega)
    rw [hrep, hout]
    rfl

/-- Witness for C1: a concrete batch where the first entry is published and
acked, the second fails synchronously, and the third is published but acked
with an error: the mask is `[true, false, false]`. -/
theorem connector_mask_spec_witness :
    (pubIds [PubOutcome.pub "g1" true, PubOutcome.fail,
        PubOutcome.pub "g3" false]).Nodup ∧
    connectorMask [PubOutcome.pub "g1" true, PubOutcome.fail,
        PubOutcome.pub "g3" false] = [true, false, false] :=
  ⟨by decide,
    (connector_mask_spec
        [PubOutcome.pub "g1" true, PubOutcome.fail, PubOutcome.pub "g3" false]
        (by decide)).trans (by decide)⟩

/-! ## JSON-RPC server protocol and RPC server glue
(`src/svc/protocol/jsonrpc`, RPC server `Register` handler)

The wire is modelled at frame level: an inbound request either fails to
unmarshal (`parseErr`) or yields the raw `id` and `params` fragments (empty
list = field absent, as easyjson leaves a `RawMessage` empty), the `method`
string and the `ctx` passthru map.  Outbound responses are modelled
structurally; `easyjson.MarshalToWriter` plus the writer are a single
fallible step controlled by `wOk` (on failure nothing is observed and an
internal write error is returned). -/

/-- A raw JSON fragment (`easyjson.RawMessage`). -/
def RawMsg : Type := List Char

/-- Result of `unmarshalFromReader` on the request struct. -/
inductive ReqParse where
  | parseErr
  | ok (id : RawMsg) (params : RawMsg) (method : String)
      (pctx : List (String × String))

/-- The `data` field of a JSON-RPC error object: either a protocol string
(`"Missing field 'id'"`, a method name, a decode error message, …) or an
encoded business error. -/
inductive RespData (ε : Type) where
  | str (s : String)
  | biz (e : ε)
deriving DecidableEq

/-- A JSON-RPC `error` object: `{code, message, data}`. -/
structure RespErr (ε : Type) where
  code : Int
  message : String
  data : Option (RespData ε)
deriving DecidableEq

/-- A response frame; `id = none` marshals as `"id": null` (the Go struct has
no `omitempty` on `ID`). -/
structure Response (ω ε : Type) where
  result : Option ω
  error : Option (RespErr ε)
  id : Option RawMsg

/-- Errors the transport handler can return.  `writeFail` models
writer/marshal failures (internal); the `biz` constructor exists so that the
statement "the handler never returns a business error" is expressible. -/
inductive HErr (ε : Type) where
  | writeFail
  | biz (e : ε)
deriving DecidableEq

/-- Per-call `serverProtocol` state: the request's raw `id` and `params`
(both empty until `ProcessRequest` stores them). -/
structure SrvProto where
  pid : RawMsg
  params : RawMsg

/-- `MarshalToWriter`: appends the frame on success, reports an internal
write error on failure. -/
def writeResp {ω ε : Type} (wOk : Bool) (frames : List (Response ω ε))
    (r : Response ω ε) : List (Response ω ε) × Option (HErr ε) :=
  if wOk then (frames ++ [r], none) else (frames, some .writeFail)

/-- `resp.ID = &p.id` only when `len(p.id) != 0`; otherwise `id` is null. -/
def respId (p : SrvProto) : Option RawMsg :=
  if p.pid.isEmpty then none else some p.pid

def msgParseError : String := "Parse error"

def msgInvalidReq : String := "Invalid request"

def msgMethodNotFound : String := "Method not found"

def msgInvalidParams : String := "Invalid params"

def msgGeneralError : String := "General error"

def missingIdMsg : String := "Missing field \x27id\x27"

def badIdValueMsg : String := "Field \x27id\x27 should be string or number"

def badParamValueMsg : String := "Field \x27param\x27 should be object or array"

def missingMethodMsg : String := "Missing field \x27method\x27"

/-- `serverProtocol.writeErrorResponse` (`jsonrpc` lines 74-89). -/
def writeErrorResponse {ω ε : Type} (wOk : Bool) (p : SrvProto)
    (frames : List (Response ω ε)) (code : Int) (message : String)
    (dat : Option (RespData ε)) : List (Response ω ε) × Option (HErr ε) :=
  writeResp wOk frames { result := none, error := some ⟨code, message, dat⟩, id := respId p }

/-- `serverProtocol.writeResponse` (`jsonrpc` lines 91-102). -/
def writeOkResponse {ω ε : Type} (wOk : Bool) (p : SrvProto)
    (frames : List (Response ω ε)) (result : ω) :
    List (Response ω ε) × Option (HErr ε) :=
  writeResp wOk frames { result := some result, error := none, id := respId p }

/-- `id[0]` must be `"`, `-` or a digit. -/
def idFirstOk : RawMsg → Bool
  | [] => false
  | c :: _ => c = '\x22' || c = '-' || c.isDigit

/-- `params[0]` must be `{` or `[`. -/
def paramsFirstOk : RawMsg → Bool
  | [] => false
  | c :: _ => c = '\x7b' || c = '['

/-- Output of `serverProtocol.ProcessRequest`. -/
structure PRout (ω ε : Type) where
  p : SrvProto
  frames : List (Response ω ε)
  done : Bool
  methodName : String
  passthru : List (String × String)
  err : Option (HErr ε)

/-- `serverProtocol.ProcessRequest` (`jsonrpc` lines 104-149): parse error →
−32700; missing id → −32600 with data `"Missing field 'id'"`; bad id first
char → −32600; store `p.id`; bad params first char → −32600; store
`p.params`; missing method → −32600; else hand back the method name and
passthru with `done = false`. -/
def srvProcessRequest {ω ε : Type} (wOk : Bool) (req : ReqParse) : PRout ω ε :=
  let p0 : SrvProto := ⟨[], []⟩
  match req with
  | .parseErr =>
      let w := writeErrorResponse wOk p0 [] (-32700) msgParseError none
      ⟨p0, w.1, true, "", [], w.2⟩
  | .ok id params method pctx =>
      if id.isEmpty then
        let w := writeErrorResponse wOk p0 [] (-32600) msgInvalidReq
          (some (.str missingIdMsg))
        ⟨p0, w.1, true, "", [], w.2⟩
      else if !(idFirstOk id) then
        let w := writeErrorResponse wOk p0 [] (-32600) msgInvalidReq
          (some (.str badIdValueMsg))
        ⟨p0, w.1, true, "", [], w.2⟩
      else
        let p1 : SrvProto := ⟨id, []⟩
        if !(params.isEmpty) && !(paramsFirstOk params) then
          let w := writeErrorResponse wOk p1 [] (-32600) msgInvalidReq
            (some (.str badParamValueMsg))
          ⟨p1, w.1, true, "", [], w.2⟩
        else
          let p2 : SrvProto := ⟨id, params⟩
          if method = "" then
            let w := writeErrorResponse wOk p2 [] (-32600) msgInvalidReq
              (some (.str missingMethodMsg))
            ⟨p2, w.1, true, "", [], w.2⟩
          else
            ⟨p2, [], false, method, pctx, none⟩

/-- `serverProtocol.ProcessMethodNotFound` (`jsonrpc` lines 151-153). -/
def srvProcessMethodNotFound {ω ε : Type} (wOk : Bool) (p : SrvProto)
    (frames : List (Response ω ε)) (methodName : String) :
    List (Response ω ε) × Option (HErr ε) :=
  writeErrorResponse wOk p frames (-32601) msgMethodNotFound
    (some (.str methodName))

/-- Output of `serverProtocol.ProcessInput`. -/
structure PIout (ω ε ι : Type) where
  frames : List (Response ω ε)
  done : Bool
  input : ι
  err : Option (HErr ε)

/-- `serverProtocol.ProcessInput` (`jsonrpc` lines 155-172): absent params are
skipped (the carrier keeps its `GenInput` state); a decode failure writes a
−32602 response; `codec` models the unmarshal of the method's input type. -/
def srvProcessInput {ω ε ι : Type} (wOk : Bool) (p : SrvProto)
    (frames : List (Response ω ε)) (codec : RawMsg → Except String ι)
    (input0 : ι) : PIout ω ε ι :=
  if p.params.isEmpty then ⟨frames, false, input0, none⟩
  else
    match codec p.params with
    | .ok v => ⟨frames, false, v, none⟩
    | .error m =>
        let w := writeErrorResponse wOk p frames (-32602) msgInvalidParams
          (some (.str m))
        ⟨w.1, true, input0, w.2⟩

/-- `serverProtocol.ProcessOutput` (`jsonrpc` lines 174-188): a nil handler
error serialises the output; a non-nil one is encoded as a −1 error response
whose `data` carries the business error. -/
def srvProcessOutput {ω ε : Type} (wOk : Bool) (p : SrvProto)
    (frames : List (Response ω ε)) (output : ω) (outputErr : Option ε) :
    List (Response ω ε) × Option (HErr ε) :=
  match outputErr with
  | none => writeOkResponse wOk p frames output
  | some e =>
      writeErrorResponse wOk p frames (-1) msgGeneralError (some (.biz e))

/-- The registered service as the transport handler observes it: its
interface's method names, the `GenInput` carrier and the invoke behaviour
(output value and business error, given method name, passthru and input). -/
structure SrvModel (ι ω ε : Type) where
  methodNames : List String
  genInput : ι
  invoke : String → List (String × String) → ι → ω × Option ε

/-- The transport handler installed by `rpcServer.Register`
(`rpc server glue` lines 41-74): run `ProcessRequest`; stop on error or done;
`ProcessMethodNotFound` when the interface lacks the method; `ProcessInput`;
invoke the service; `ProcessOutput` with the business result.  Returns the
final response frames and the error handed back to the transport. -/
def rpcHandle {ι ω ε : Type} (wOk : Bool) (svc : SrvModel ι ω ε)
    (codec : RawMsg → Except String ι) (req : ReqParse) :
    List (Response ω ε) × Option (HErr ε) :=
  let r1 : PRout ω ε := srvProcessRequest wOk req
  if r1.err.isSome || r1.done then (r1.frames, r1.err)
  else if !(svc.methodNames.contains r1.methodName) then
    srvProcessMethodNotFound wOk r1.p r1.frames r1.methodName
  else
    let r2 := srvProcessInput wOk r1.p r1.frames codec svc.genInput
    if r2.err.isSome || r2.done then (r2.frames, r2.err)
    else
      let out := svc.invoke r1.methodName r1.passthru r2.input
      srvProcessOutput wOk r1.p r2.frames out.1 out.2

/-- An error value is internal: absent or a write failure. -/
def internalErr {ε : Type} (e : Option (HErr ε)) : Prop :=
  e = none ∨ e = some HErr.writeFail

theorem writeResp_err_internal {ω ε : Type} (wOk : Bool)
    (frames : List (Response ω ε)) (r : Response ω ε) :
    internalErr (writeResp wOk frames r).2 := by
  unfold writeResp internalErr
  by_cases h : wOk = true
  · rw [if_pos h]; exact Or.inl rfl
  · rw [if_neg h]; exact Or.inr rfl

theorem writeErrorResponse_err_internal {ω ε : Type} (wOk : Bool)
    (p : SrvProto) (frames : List (Response ω ε)) (code : Int)
    (message : String) (dat : Option (RespData ε)) :
    internalErr (writeErrorResponse wOk p frames code message dat).2 :=
  writeResp_err_internal wOk frames _

theorem srvProcessRequest_err_internal {ω ε : Type} (wOk : Bool)
    (req : ReqParse) :
    internalErr (srvProcessRequest (ω := ω) (ε := ε) wOk req).err := by
  cases req with
  | parseErr => exact writeErrorResponse_err_internal wOk _ _ _ _ _
  | ok id params method pctx =>
      simp only [srvProcessRequest]
      split
      · exact writeErrorResponse_err_internal wOk _ _ _ _ _
      · split
        · exact writeErrorResponse_err_internal wOk _ _ _ _ _
        · split
          · exact writeErrorResponse_err_internal wOk _ _ _ _ _
          · split
            · exact writeErrorResponse_err_internal wOk _ _ _ _ _
            · exact Or.inl rfl

theorem srvProcessInput_err_internal {ω ε ι : Type} (wOk : Bool)
    (p : SrvProto) (frames : List (Response ω ε))
    (codec : RawMsg → Except String ι) (input0 : ι) :
    internalErr (srvProcessInput wOk p frames codec input0).err := by
  unfold srvProcessInput
  split
  · exact Or.inl rfl
  · split
    · exact Or.inl rfl
    · exact writeErrorResponse_err_internal wOk _ _ _ _ _

theorem srvProcessOutput_err_internal {ω ε : Type} (wOk : Bool)
    (p : SrvProto) (frames : List (Response ω ε)) (output : ω)
    (outputErr : Option ε) :
    internalErr (srvProcessOutput wOk p frames output outputErr).2 := by
  unfold srvProcessOutput
  match outputErr with
  | none => exact writeResp_err_internal wOk _ _
  | some e => exact writeErrorResponse_err_internal wOk _ _ _ _ _

theorem rpcHandle_err_internal {ι ω ε : Type} (wOk : Bool)
    (svc : SrvModel ι ω ε) (codec : RawMsg → Except String ι)
    (req : ReqParse) :
    internalErr (rpcHandle wOk svc codec req).2 := by
  simp only [rpcHandle]
  split
  · exact srvProcessRequest_err_internal wOk req
  · split
    · exact writeErrorResponse_err_internal wOk _ _ _ _ _
    · split
      · exact srvProcessInput_err_internal wOk _ _ codec svc.genInput
      · exact srvProcessOutput_err_internal wOk _ _ _ _

/-- C3: the transport handler installed by the RPC server glue only ever
returns internal protocol/writer errors — never the business error produced
by the service (first conjunct); a non-nil handler error is passed to
`ProcessOutput`, which (writes succeeding) encodes it inside the response
body as a −1 error frame and returns nil to the transport (second
conjunct). -/
theorem rpcHandle_internal_errors_only {ι ω ε : Type} (wOk : Bool)
    (svc : SrvModel ι ω ε) (codec : RawMsg → Except String ι)
    (req : ReqParse) :
    internalErr (rpcHandle wOk svc codec req).2 ∧
    (∀ (p : SrvProto) (frames : List (Response ω ε)) (out : ω) (e : ε),
      srvProcessOutput true p frames out (some e) =
        (frames ++
          [⟨none, some ⟨-1, msgGeneralError, some (.biz e)⟩, respId p⟩],
          none)) :=
  ⟨rpcHandle_err_internal wOk svc codec req, fun _ _ _ _ => rfl⟩

/-- C7: a request frame whose `id` field is absent produces exactly one
response, carrying `error.code = −32600`, `error.data = "Missing field 'id'"`
and `id = null`, with `done = true` and a nil internal error; the result does
not depend on the service model at all, so the service is never invoked. -/
theorem processRequest_missing_id {ι ω ε : Type} (svc : SrvModel ι ω ε)
    (codec : RawMsg → Except String ι) (params : RawMsg) (method : String)
    (pctx : List (String × String)) :
    rpcHandle true svc codec (ReqParse.ok [] params method pctx) =
      ([⟨none, some ⟨-32600, msgInvalidReq, some (.str missingIdMsg)⟩, none⟩],
        none) ∧
    (srvProcessRequest (ω := ω) (ε := ε) true
        (ReqParse.ok [] params method pctx)).done = true ∧
    (srvProcessRequest (ω := ω) (ε := ε) true
        (ReqParse.ok [] params method pctx)).err = none :=
  ⟨rfl, rfl, rfl⟩

end PlatformKit
